import Mathlib

/-!
Verification of `src/inventory_system.py`: an in-memory inventory tracker
(mapping from item names to integer quantities) with JSON file persistence.

The Python dict `STOCK_DATA` is embedded as an insertion-ordered association
list with unique keys (`Stock`); the Python dict primitives (`d.get`,
`d[k] = v`, `del d[k]`, `k in d`, `d.items()` iteration order) are embedded
as `dictGet`, `dictSet`, `dictDel`, `dictMem` and the list order itself.
`dictSet` updates the first occurrence of the key in place (keeping its
position) or appends, exactly as CPython dicts do.

Logging calls (`logging.info` / `logging.warning` / `logging.error`) are
embedded as a `LogLevel` value returned alongside the new state.

File persistence is embedded at the JSON token level: `save_data` serializes
the mapping to the token stream of a JSON object with integer values (the
only documents `save_data` can write), and `load_data` parses such a stream
back, building the dict the way `json.load` does (inserting pairs in order).
A token stream the parser rejects models a file whose contents are not a
well-formed JSON document: `json.load` raises there, and `load_data` only
catches `FileNotFoundError`, so the failure propagates (`Except.error`).
-/

namespace InventorySpec

/-- Python runtime values passed to the inventory API: strings and ints,
enough to express the `isinstance` checks and the spec's wrong-type example
`add_item(123, "ten")`. -/
inductive PyVal where
  | str : String → PyVal
  | int : Int → PyVal
  deriving DecidableEq

/-- Models the `isinstance(x, str)` check. -/
def isStr : PyVal → Bool
  | PyVal.str _ => true
  | PyVal.int _ => false

/-- Models the `isinstance(x, int)` check. -/
def isInt : PyVal → Bool
  | PyVal.int _ => true
  | PyVal.str _ => false

/-- Level of the log line an operation emits (`logging.info` /
`logging.warning` / `logging.error`). -/
inductive LogLevel where
  | info
  | warning
  | error
  deriving DecidableEq

/-- First-occurrence lookup in an association list: `d.get(k)` / `k in d`
on a Python dict (which never holds duplicate keys). -/
def dictFind {α : Type} : List (String × α) → String → Option α
  | [], _ => Option.none
  | p :: rest, k => if p.1 = k then Option.some p.2 else dictFind rest k

/-- Models `d.get(k, dflt)`. -/
def dictGet (d : List (String × Int)) (k : String) (dflt : Int) : Int :=
  (dictFind d k).getD dflt

/-- Models `k in d`. -/
def dictMem {α : Type} (d : List (String × α)) (k : String) : Bool :=
  (dictFind d k).isSome

/-- Models `d[k] = v`: update the existing entry in place (keeping its
position, as CPython dicts do) or append a new entry at the end. -/
def dictSet {α : Type} : List (String × α) → String → α → List (String × α)
  | [], k, v => [(k, v)]
  | p :: rest, k, v => if p.1 = k then (k, v) :: rest else p :: dictSet rest k v

/-- Models `del d[k]`. -/
def dictDel {α : Type} (d : List (String × α)) (k : String) : List (String × α) :=
  d.filter fun p => p.1 != k

/-- The type of `STOCK_DATA`: item name to integer quantity, in insertion
order. -/
abbrev Stock := List (String × Int)

/-- Well-formedness of the embedding: a Python dict never holds two entries
with the same key. -/
def WF (s : Stock) : Prop := (s.map Prod.fst).Nodup

instance (s : Stock) : Decidable (WF s) := by
  unfold WF; infer_instance

/-- Embeds `add_item` (src/inventory_system.py lines 20-37): validates the
argument types (else logs an error and returns), then
`STOCK_DATA[item] = STOCK_DATA.get(item, 0) + qty` and logs info. -/
def add_item : PyVal → PyVal → Stock → Stock × LogLevel
  | PyVal.str item, PyVal.int qty, s =>
      (dictSet s item (dictGet s item 0 + qty), LogLevel.info)
  | _, _, s => (s, LogLevel.error)

/-- Embeds `remove_item` (src/inventory_system.py lines 40-59): validates
types (else error log), raises-and-catches `KeyError` into a warning when
the item is absent, else `STOCK_DATA[item] -= qty` and deletes the entry
when the stored value has become `<= 0`. -/
def remove_item : PyVal → PyVal → Stock → Stock × LogLevel
  | PyVal.str item, PyVal.int qty, s =>
      if dictMem s item then
        let s1 := dictSet s item (dictGet s item 0 - qty)
        if dictGet s1 item 0 ≤ 0 then (dictDel s1 item, LogLevel.info)
        else (s1, LogLevel.info)
      else (s, LogLevel.warning)
  | _, _, s => (s, LogLevel.error)

/-- Embeds `get_qty` (lines 62-71): `STOCK_DATA.get(item, 0)`. -/
def get_qty (s : Stock) (item : String) : Int := dictGet s item 0

/-- Embeds `check_low_items` (lines 111-120): the list comprehension
`[item for item, qty in STOCK_DATA.items() if qty < threshold]`, in the
dict's insertion order. -/
def check_low_items (s : Stock) (threshold : Int) : List String :=
  (s.filter fun p => decide (p.2 < threshold)).map Prod.fst

/-- JSON tokens for the documents `save_data` writes: top-level objects
whose values are integers. String escaping inside a string literal is
abstracted into the `strLit` token. -/
inductive Tok where
  | lbrace
  | rbrace
  | colon
  | comma
  | strLit : String → Tok
  | intLit : Int → Tok
  deriving DecidableEq

/-- Token stream of one `"key": value` entry as `json.dump` writes it. -/
def entryTokens (k : String) (v : Int) : List Tok :=
  [Tok.strLit k, Tok.colon, Tok.intLit v]

/-- Comma-separated entry list of a JSON object body. -/
def dumpEntries : Stock → List Tok
  | [] => []
  | [p] => entryTokens p.1 p.2
  | p :: q :: rest => entryTokens p.1 p.2 ++ [Tok.comma] ++ dumpEntries (q :: rest)

/-- Embeds the serialization side of `save_data` (lines 90-101):
`json.dump(STOCK_DATA, file)` as the token stream of the JSON object. -/
def dumpTokens : Stock → List Tok
  | [] => [Tok.lbrace, Tok.rbrace]
  | p :: rest => Tok.lbrace :: (dumpEntries (p :: rest) ++ [Tok.rbrace])

/-- Parses the comma-separated entries of a JSON object body up to the
closing brace; rejects anything else (trailing commas, missing braces,
stray tokens), as `json.load` does. -/
def parseItems : List Tok → Option (List (String × Int))
  | [Tok.strLit k, Tok.colon, Tok.intLit v, Tok.rbrace] => Option.some [(k, v)]
  | Tok.strLit k :: Tok.colon :: Tok.intLit v :: Tok.comma :: rest =>
      (parseItems rest).map fun l => (k, v) :: l
  | _ => Option.none

/-- Parses a whole document: a JSON object with integer values (the only
shape `save_data` writes). `Option.none` models a decode failure, on which
`json.load` raises. -/
def parseTop : List Tok → Option (List (String × Int))
  | [Tok.lbrace, Tok.rbrace] => Option.some []
  | Tok.lbrace :: rest => parseItems rest
  | _ => Option.none

/-- Builds a dict from parsed key/value pairs in order, as `json.load`
does when constructing the decoded object. -/
def buildDict (l : List (String × Int)) : Stock :=
  l.foldl (fun d p => dictSet d p.1 p.2) []

/-- The file system seen by `load_data`/`save_data`: path to file contents
(a token stream). A missing path raises `FileNotFoundError` in Python. -/
abbrev FS := List (String × List Tok)

/-- Embeds `INVENTORY_FILE` (line 14), the default path. -/
def INVENTORY_FILE : String := "inventory.json"

/-- Embeds `load_data` (lines 74-87): replaces `STOCK_DATA` with the decoded
file contents. A missing file is caught and logged as a warning, leaving
`STOCK_DATA = {}`; a decode failure is not caught (`except` names only
`FileNotFoundError`) and propagates to the caller as `Except.error`. -/
def load_data (fs : FS) (path : String) : Except Unit (Stock × LogLevel) :=
  match dictFind fs path with
  | Option.none => Except.ok (([] : Stock), LogLevel.warning)
  | Option.some toks =>
    match parseTop toks with
    | Option.some pairs => Except.ok (buildDict pairs, LogLevel.info)
    | Option.none => Except.error ()

/-- Embeds `save_data` (lines 90-101): writes the serialized mapping to the
path and logs info. (The `IOError`/`TypeError` handler is unreachable in
this model: the file system always accepts the write and every `Stock` is
serializable.) -/
def save_data (fs : FS) (path : String) (s : Stock) : FS × LogLevel :=
  (dictSet fs path (dumpTokens s), LogLevel.info)

/-- One API call against the shared state, for stating invariants over
operation sequences. -/
inductive Op where
  | add : PyVal → PyVal → Op
  | remove : PyVal → PyVal → Op
  | save : String → Op
  | load : String → Op
  deriving DecidableEq

/-- Small-step execution of one operation on (stock, file system).
`Option.none` models an uncaught exception (the decode failure `load_data`
propagates) aborting the program. -/
def step (st : Stock × FS) : Op → Option (Stock × FS)
  | Op.add item qty => Option.some ((add_item item qty st.1).1, st.2)
  | Op.remove item qty => Option.some ((remove_item item qty st.1).1, st.2)
  | Op.save path => Option.some (st.1, (save_data st.2 path st.1).1)
  | Op.load path =>
    match load_data st.2 path with
    | Except.ok (s, _) => Option.some (s, st.2)
    | Except.error _ => Option.none

/-- Runs a sequence of operations from a given state. -/
def runFrom (st : Stock × FS) : List Op → Option (Stock × FS)
  | [] => Option.some st
  | op :: rest =>
    match step st op with
    | Option.some st1 => runFrom st1 rest
    | Option.none => Option.none

/-- Runs a sequence of operations from the empty mapping and an empty file
system (the state before any file has been saved). -/
def run (ops : List Op) : Option (Stock × FS) :=
  runFrom (([] : Stock), ([] : FS)) ops

/-- The spec's data-model invariant: no entry has quantity `≤ 0`. -/
def stockPos (s : Stock) : Prop := ∀ p ∈ s, 0 < p.2

instance (s : Stock) : Decidable (stockPos s) := by
  unfold stockPos; infer_instance

/-- Every file on disk is a serialized all-positive mapping (what `save_data`
writes while the invariant holds). -/
def fsGood (fs : FS) : Prop :=
  ∀ pr ∈ fs, ∃ s0 : Stock, stockPos s0 ∧ pr.2 = dumpTokens s0

/-- Checks that an operation, if it is a well-typed `add`, adds a positive
quantity. -/
def addPositive : Op → Bool
  | Op.add _ (PyVal.int q) => decide (0 < q)
  | _ => true

/-! Dictionary lemmas. -/

theorem dictFind_set_self {α : Type} (d : List (String × α)) (k : String) (v : α) :
    dictFind (dictSet d k v) k = Option.some v := by
  induction d with
  | nil => simp [dictSet, dictFind]
  | cons p rest ih =>
    by_cases h : p.1 = k
    · simp [dictSet, dictFind, h]
    · simp [dictSet, dictFind, h, ih]

theorem dictFind_set_other {α : Type} (d : List (String × α)) (k k' : String) (v : α)
    (h : k ≠ k') : dictFind (dictSet d k v) k' = dictFind d k' := by
  induction d with
  | nil => simp [dictSet, dictFind, h]
  | cons p rest ih =>
    by_cases hp : p.1 = k
    · simp [dictSet, dictFind, hp, h]
    · by_cases hp' : p.1 = k'
      · simp [dictSet, dictFind, hp, hp', Ne.symm h]
      · simp [dictSet, dictFind, hp, hp', ih]

theorem dictFind_del_self {α : Type} (d : List (String × α)) (k : String) :
    dictFind (dictDel d k) k = Option.none := by
  induction d with
  | nil => simp [dictDel, dictFind]
  | cons p rest ih =>
    by_cases h : p.1 = k
    · simpa [dictDel, dictFind, h] using ih
    · simpa [dictDel, dictFind, h] using ih

theorem mem_of_dictFind {α : Type} (d : List (String × α)) (k : String) (v : α)
    (h : dictFind d k = Option.some v) : (k, v) ∈ d := by
  induction d with
  | nil => simp [dictFind] at h
  | cons p rest ih =>
    cases p with
    | mk a b =>
      by_cases hp : a = k
      · simp [dictFind, hp] at h
        subst hp
        subst h
        exact List.mem_cons_self _ _
      · simp [dictFind, hp] at h
        exact List.mem_cons_of_mem _ (ih h)

theorem mem_dictSet {α : Type} (d : List (String × α)) (k : String) (v : α)
    (x : String × α) (h : x ∈ dictSet d k v) : x ∈ d ∨ x = (k, v) := by
  induction d with
  | nil => simp [dictSet] at h; simp [h]
  | cons p rest ih =>
    by_cases hp : p.1 = k
    · simp [dictSet, hp] at h
      rcases h with h | h
      · right; simp [h]
      · left; exact List.mem_cons_of_mem _ h
    · simp [dictSet, hp] at h
      rcases h with h | h
      · left; simp [h]
      · rcases ih h with h' | h'
        · left; exact List.mem_cons_of_mem _ h'
        · right; exact h'

theorem mem_dictDel {α : Type} (d : List (String × α)) (k : String)
    (x : String × α) (h : x ∈ dictDel d k) : x ∈ d ∧ x.1 ≠ k := by
  unfold dictDel at h
  rw [List.mem_filter] at h
  exact ⟨h.1, by simpa using h.2⟩

theorem dictSet_append_of_absent {α : Type} (d : List (String × α)) (k : String) (v : α)
    (h : dictFind d k = Option.none) : dictSet d k v = d ++ [(k, v)] := by
  induction d with
  | nil => simp [dictSet]
  | cons p rest ih =>
    by_cases hp : p.1 = k
    · simp [dictFind, hp] at h
    · simp [dictFind, hp] at h
      simp [dictSet, hp, ih h]

theorem dictFind_append_none {α : Type} (d : List (String × α)) (k k0 : String) (v0 : α)
    (h : dictFind d k = Option.none) (hk : k0 ≠ k) :
    dictFind (d ++ [(k0, v0)]) k = Option.none := by
  induction d with
  | nil => simp [dictFind, hk]
  | cons p rest ih =>
    by_cases hp : p.1 = k
    · simp [dictFind, hp] at h
    · simp [dictFind, hp] at h ⊢
      exact ih h

/-! `buildDict` reproduces a duplicate-free pair list. -/

theorem foldl_dictSet_append (l : List (String × Int)) :
    ∀ acc : Stock, (∀ p ∈ l, dictFind acc p.1 = Option.none) →
      (l.map Prod.fst).Nodup →
      l.foldl (fun d p => dictSet d p.1 p.2) acc = acc ++ l := by
  induction l with
  | nil => intro acc _ _; simp
  | cons p rest ih =>
    intro acc habs hnd
    have hfind : dictFind acc p.1 = Option.none := habs p (List.mem_cons_self _ _)
    rw [List.map_cons] at hnd
    have hp_not : p.1 ∉ rest.map Prod.fst := (List.nodup_cons.mp hnd).1
    have hnd' : (rest.map Prod.fst).Nodup := (List.nodup_cons.mp hnd).2
    have habs' : ∀ q ∈ rest, dictFind (acc ++ [(p.1, p.2)]) q.1 = Option.none := by
      intro q hq
      apply dictFind_append_none
      · exact habs q (List.mem_cons_of_mem _ hq)
      · intro hcontra
        apply hp_not
        rw [hcontra]
        exact List.mem_map_of_mem Prod.fst hq
    calc (p :: rest).foldl (fun d q => dictSet d q.1 q.2) acc
        = rest.foldl (fun d q => dictSet d q.1 q.2) (dictSet acc p.1 p.2) := by
          simp [List.foldl_cons]
      _ = rest.foldl (fun d q => dictSet d q.1 q.2) (acc ++ [(p.1, p.2)]) := by
          rw [dictSet_append_of_absent acc p.1 p.2 hfind]
      _ = (acc ++ [(p.1, p.2)]) ++ rest := ih _ habs' hnd'
      _ = acc ++ p :: rest := by simp

theorem buildDict_eq_self (s : Stock) (h : WF s) : buildDict s = s := by
  unfold buildDict
  have := foldl_dictSet_append s ([] : Stock) (fun p _ => rfl) h
  simpa using this

theorem mem_foldl_dictSet (l : List (String × Int)) :
    ∀ (acc : Stock) (x : String × Int),
      x ∈ l.foldl (fun d p => dictSet d p.1 p.2) acc → x ∈ acc ∨ x ∈ l := by
  induction l with
  | nil => intro acc x h; simp at h; exact Or.inl h
  | cons p rest ih =>
    intro acc x h
    simp only [List.foldl_cons] at h
    rcases ih (dictSet acc p.1 p.2) x h with h' | h'
    · rcases mem_dictSet acc p.1 p.2 x h' with h'' | h''
      · exact Or.inl h''
      · exact Or.inr (by simp [h''])
    · exact Or.inr (List.mem_cons_of_mem _ h')

theorem mem_buildDict (l : List (String × Int)) (x : String × Int)
    (h : x ∈ buildDict l) : x ∈ l := by
  rcases mem_foldl_dictSet l [] x h with h' | h'
  · simp at h'
  · exact h'

/-! Serialization round-trip. -/

theorem parseItems_dumpEntries (rest : Stock) :
    ∀ (k : String) (v : Int),
      parseItems (dumpEntries ((k, v) :: rest) ++ [Tok.rbrace]) =
        Option.some ((k, v) :: rest) := by
  induction rest with
  | nil => intro k v; rfl
  | cons q rest2 ih =>
    intro k v
    cases q with
    | mk k2 v2 =>
      have hd : dumpEntries ((k, v) :: (k2, v2) :: rest2) =
          entryTokens k v ++ [Tok.comma] ++ dumpEntries ((k2, v2) :: rest2) := rfl
      rw [hd]
      have : entryTokens k v ++ [Tok.comma] ++ dumpEntries ((k2, v2) :: rest2) ++ [Tok.rbrace] =
          Tok.strLit k :: Tok.colon :: Tok.intLit v :: Tok.comma ::
            (dumpEntries ((k2, v2) :: rest2) ++ [Tok.rbrace]) := by
        simp [entryTokens]
      rw [this]
      have hstep : parseItems (Tok.strLit k :: Tok.colon :: Tok.intLit v :: Tok.comma ::
            (dumpEntries ((k2, v2) :: rest2) ++ [Tok.rbrace])) =
          (parseItems (dumpEntries ((k2, v2) :: rest2) ++ [Tok.rbrace])).map
            fun l => (k, v) :: l := by
        have hne : dumpEntries ((k2, v2) :: rest2) ++ [Tok.rbrace] ≠ [] := by
          simp
        match hmatch : dumpEntries ((k2, v2) :: rest2) ++ [Tok.rbrace] with
        | [] => exact absurd hmatch hne
        | t :: ts => rfl
      rw [hstep, ih k2 v2]
      rfl

theorem parseTop_dumpTokens (s : Stock) : parseTop (dumpTokens s) = Option.some s := by
  cases s with
  | nil => rfl
  | cons p rest =>
    cases p with
    | mk k v =>
      have hd : dumpTokens ((k, v) :: rest) =
          Tok.lbrace :: (dumpEntries ((k, v) :: rest) ++ [Tok.rbrace]) := rfl
      rw [hd]
      have hshape : dumpEntries ((k, v) :: rest) ++ [Tok.rbrace] =
          Tok.strLit k :: (dumpEntries ((k, v) :: rest)).tail ++ [Tok.rbrace] := by
        cases rest <;> rfl
      have htop : parseTop (Tok.lbrace :: (dumpEntries ((k, v) :: rest) ++ [Tok.rbrace])) =
          parseItems (dumpEntries ((k, v) :: rest) ++ [Tok.rbrace]) := by
        rw [hshape]
        rfl
      rw [htop, parseItems_dumpEntries rest k v]

/-! Unfolding lemmas for `remove_item`. -/

theorem dictGet_set_self (d : Stock) (k : String) (v dflt : Int) :
    dictGet (dictSet d k v) k dflt = v := by
  simp [dictGet, dictFind_set_self]

theorem remove_item_present (s : Stock) (item : String) (qty : Int)
    (h : dictMem s item = true) :
    remove_item (PyVal.str item) (PyVal.int qty) s =
      if dictGet s item 0 - qty ≤ 0 then
        (dictDel (dictSet s item (dictGet s item 0 - qty)) item, LogLevel.info)
      else (dictSet s item (dictGet s item 0 - qty), LogLevel.info) := by
  simp only [remove_item, h, if_true, dictGet_set_self]

theorem remove_item_absent_eq (s : Stock) (item : String) (qty : Int)
    (h : dictMem s item = false) :
    remove_item (PyVal.str item) (PyVal.int qty) s = (s, LogLevel.warning) := by
  simp [remove_item, h]

/-! Preservation of the positivity invariant by one step. -/

theorem step_good (st st' : Stock × FS) (op : Op)
    (hpos : stockPos st.1) (hfs : fsGood st.2)
    (hop : addPositive op = true)
    (hstep : step st op = Option.some st') :
    stockPos st'.1 ∧ fsGood st'.2 := by
  cases op with
  | add item qty =>
    cases item with
    | int n =>
      simp only [step, add_item] at hstep
      have hst : st' = (st.1, st.2) := (Option.some.inj hstep).symm
      rw [hst]
      exact ⟨hpos, hfs⟩
    | str name =>
      cases qty with
      | str q =>
        simp only [step, add_item] at hstep
        have hst : st' = (st.1, st.2) := (Option.some.inj hstep).symm
        rw [hst]
        exact ⟨hpos, hfs⟩
      | int q =>
        have hq : 0 < q := by simpa [addPositive] using hop
        simp only [step, add_item] at hstep
        have hst : st' = (dictSet st.1 name (dictGet st.1 name 0 + q), st.2) :=
          (Option.some.inj hstep).symm
        rw [hst]
        refine ⟨?_, hfs⟩
        intro p hp
        rcases mem_dictSet _ _ _ p hp with h | h
        · exact hpos p h
        · rw [h]
          show 0 < dictGet st.1 name 0 + q
          cases hf : dictFind st.1 name with
          | none => simpa [dictGet, hf] using hq
          | some v =>
            have hv : 0 < v := hpos (name, v) (mem_of_dictFind _ _ _ hf)
            simp only [dictGet, hf, Option.getD_some]
            omega
  | remove item qty =>
    cases item with
    | int n =>
      simp only [step, remove_item] at hstep
      have hst : st' = (st.1, st.2) := (Option.some.inj hstep).symm
      rw [hst]
      exact ⟨hpos, hfs⟩
    | str name =>
      cases qty with
      | str q =>
        simp only [step, remove_item] at hstep
        have hst : st' = (st.1, st.2) := (Option.some.inj hstep).symm
        rw [hst]
        exact ⟨hpos, hfs⟩
      | int q =>
        by_cases hmem : dictMem st.1 name = true
        · simp only [step, remove_item_present st.1 name q hmem] at hstep
          by_cases hle : dictGet st.1 name 0 - q ≤ 0
          · rw [if_pos hle] at hstep
            have hst : st' =
                (dictDel (dictSet st.1 name (dictGet st.1 name 0 - q)) name, st.2) :=
              (Option.some.inj hstep).symm
            rw [hst]
            refine ⟨?_, hfs⟩
            intro p hp
            obtain ⟨hp1, hp2⟩ := mem_dictDel _ _ p hp
            rcases mem_dictSet _ _ _ p hp1 with h | h
            · exact hpos p h
            · exact absurd (by rw [h]) hp2
          · rw [if_neg hle] at hstep
            have hst : st' = (dictSet st.1 name (dictGet st.1 name 0 - q), st.2) :=
              (Option.some.inj hstep).symm
            rw [hst]
            refine ⟨?_, hfs⟩
            intro p hp
            rcases mem_dictSet _ _ _ p hp with h | h
            · exact hpos p h
            · rw [h]
              show 0 < dictGet st.1 name 0 - q
              omega
        · have hmem' : dictMem st.1 name = false := by
            simpa using hmem
          simp only [step, remove_item_absent_eq st.1 name q hmem'] at hstep
          have hst : st' = (st.1, st.2) := (Option.some.inj hstep).symm
          rw [hst]
          exact ⟨hpos, hfs⟩
  | save path =>
    simp only [step, save_data] at hstep
    have hst : st' = (st.1, dictSet st.2 path (dumpTokens st.1)) :=
      (Option.some.inj hstep).symm
    rw [hst]
    refine ⟨hpos, ?_⟩
    intro pr hpr
    rcases mem_dictSet _ _ _ pr hpr with h | h
    · exact hfs pr h
    · exact ⟨st.1, hpos, by rw [h]⟩
  | load path =>
    cases hload : dictFind st.2 path with
    | none =>
      simp only [step, load_data, hload] at hstep
      have hst : st' = (([] : Stock), st.2) := (Option.some.inj hstep).symm
      rw [hst]
      exact ⟨fun p hp => absurd hp (List.not_mem_nil p), hfs⟩
    | some toks =>
      obtain ⟨s0, hs0pos, htoks⟩ := hfs (path, toks) (mem_of_dictFind _ _ _ hload)
      simp only at htoks
      simp only [step, load_data, hload, htoks, parseTop_dumpTokens] at hstep
      have hst : st' = (buildDict s0, st.2) := (Option.some.inj hstep).symm
      rw [hst]
      refine ⟨?_, hfs⟩
      intro p hp
      exact hs0pos p (mem_buildDict s0 p hp)

/-- Invariant preservation along a whole run. -/
theorem runFrom_good (ops : List Op) :
    ∀ st st' : Stock × FS, stockPos st.1 → fsGood st.2 →
      ops.all addPositive = true → runFrom st ops = Option.some st' →
      stockPos st'.1 ∧ fsGood st'.2 := by
  induction ops with
  | nil =>
    intro st st' hpos hfs _ hrun
    have : st = st' := Option.some.inj hrun
    rw [← this]
    exact ⟨hpos, hfs⟩
  | cons op rest ih =>
    intro st st' hpos hfs hall hrun
    rw [List.all_cons, Bool.and_eq_true] at hall
    cases hstep : step st op with
    | none => simp [runFrom, hstep] at hrun
    | some st1 =>
      have hgood := step_good st st1 op hpos hfs hall.1 hstep
      have hrun1 : runFrom st1 rest = Option.some st' := by
        simpa [runFrom, hstep] using hrun
      exact ih st1 st' hgood.1 hgood.2 hall.2 hrun1

/-! Lemmas about `check_low_items`. -/

theorem check_low_cons (p : String × Int) (rest : Stock) (t : Int) :
    check_low_items (p :: rest) t =
      if p.2 < t then p.1 :: check_low_items rest t else check_low_items rest t := by
  by_cases hp : p.2 < t <;> simp [check_low_items, hp]

theorem check_low_sublist (s : Stock) (t : Int) :
    List.Sublist (check_low_items s t) (s.map Prod.fst) :=
  List.Sublist.map Prod.fst (List.filter_sublist s)

theorem mem_check_low_iff (s : Stock) (t : Int) (h : WF s) (x : String) :
    x ∈ check_low_items s t ↔ dictMem s x = true ∧ dictGet s x 0 < t := by
  induction s with
  | nil => simp [check_low_items, dictMem, dictFind]
  | cons p rest ih =>
    rw [WF, List.map_cons, List.nodup_cons] at h
    obtain ⟨hnotin, hnd⟩ := h
    have ihr := ih hnd
    rw [check_low_cons]
    by_cases hx : p.1 = x
    · subst hx
      have hmem : dictMem (p :: rest) p.1 = true := by simp [dictMem, dictFind]
      have hget : dictGet (p :: rest) p.1 0 = p.2 := by simp [dictGet, dictFind]
      by_cases hp : p.2 < t
      · rw [if_pos hp]
        constructor
        · intro _
          exact ⟨hmem, by rw [hget]; exact hp⟩
        · intro _
          exact List.mem_cons_self _ _
      · rw [if_neg hp]
        constructor
        · intro hmem'
          exact absurd ((check_low_sublist rest t).subset hmem') hnotin
        · intro hrhs
          rw [hget] at hrhs
          exact absurd hrhs.2 hp
    · have hmem : dictMem (p :: rest) x = dictMem rest x := by
        simp [dictMem, dictFind, hx]
      have hget : dictGet (p :: rest) x 0 = dictGet rest x 0 := by
        simp [dictGet, dictFind, hx]
      rw [hmem, hget]
      by_cases hp : p.2 < t
      · rw [if_pos hp]
        simp only [List.mem_cons]
        constructor
        · rintro (h' | h')
          · exact absurd h'.symm hx
          · exact ihr.mp h'
        · intro h'
          exact Or.inr (ihr.mpr h')
      · rw [if_neg hp]
        exact ihr

/-! Claim theorems. -/

/-- Claim C1, counterexample: starting from the empty mapping,
`add_item("apple", 10)` then `add_item("banana", -2)` leaves `"banana"`
PRESENT with quantity `-2`, so an entry with quantity `≤ 0` exists and the
claimed invariant fails (`add_item` never removes non-positive entries). -/
theorem add_negative_breaks_invariant :
    run [Op.add (PyVal.str "apple") (PyVal.int 10),
         Op.add (PyVal.str "banana") (PyVal.int (-2))] =
      Option.some (([("apple", (10 : Int)), ("banana", (-2 : Int))] : Stock), ([] : FS))
    ∧ ¬ stockPos [("apple", (10 : Int)), ("banana", (-2 : Int))]
    ∧ dictMem [("apple", (10 : Int)), ("banana", (-2 : Int))] "banana" = true
    ∧ dictGet [("apple", (10 : Int)), ("banana", (-2 : Int))] "banana" 0 = -2 := by
  refine ⟨by decide, by decide, by decide, by decide⟩

/-- Claim C1 (amended): after any sequence of `add_item`, `remove_item`,
`save_data` and `load_data` operations starting from an empty mapping and an
empty file store, IN WHICH EVERY `add_item` CALL USES A POSITIVE QUANTITY,
no entry of the stock mapping has quantity `≤ 0`. (As stated the claim is
false: `add_item("banana", -2)` stores the entry `banana ↦ -2` rather than
leaving it absent or removing it.) -/
theorem stock_invariant_of_positive_adds (ops : List Op) (st : Stock × FS)
    (h1 : ops.all addPositive = true) (h2 : run ops = Option.some st) :
    stockPos st.1 :=
  (runFrom_good ops (([] : Stock), ([] : FS)) st
    (fun p hp => absurd hp (List.not_mem_nil p))
    (fun pr hpr => absurd hpr (List.not_mem_nil pr)) h1 h2).1

/-- Claim C1 witness: the spec scenario without the negative add, including a
save/load round trip, reaches `{"apple": 7}`, which satisfies the invariant. -/
theorem stock_invariant_of_positive_adds_witness :
    stockPos [("apple", (7 : Int))] :=
  stock_invariant_of_positive_adds
    [Op.add (PyVal.str "apple") (PyVal.int 10),
     Op.remove (PyVal.str "apple") (PyVal.int 3),
     Op.save INVENTORY_FILE, Op.load INVENTORY_FILE]
    (([("apple", (7 : Int))] : Stock),
     ([(INVENTORY_FILE,
        [Tok.lbrace, Tok.strLit "apple", Tok.colon, Tok.intLit 7, Tok.rbrace])] : FS))
    (by decide) (by decide)

/-- Claim C2: for every mapping with text keys and integer values (and no
duplicate keys, as for every Python dict), `save_data(path)` followed by
`load_data(path)` on the same path succeeds and reproduces an equal
mapping. -/
theorem save_load_roundtrip (fs : FS) (path : String) (s : Stock) (h : WF s) :
    load_data ((save_data fs path s).1) path = Except.ok (s, LogLevel.info) := by
  simp only [save_data, load_data, dictFind_set_self, parseTop_dumpTokens,
    buildDict_eq_self s h]

/-- Claim C2 witness: round trip of the non-empty mapping `{"apple": 7}`. -/
theorem save_load_roundtrip_witness :
    load_data ((save_data ([] : FS) INVENTORY_FILE [("apple", (7 : Int))]).1)
        INVENTORY_FILE =
      Except.ok (([("apple", (7 : Int))] : Stock), LogLevel.info) :=
  save_load_roundtrip ([] : FS) INVENTORY_FILE [("apple", (7 : Int))] (by decide)

/-- Claim C3: for every text name and integer `qty > 0`, `add_item` makes
`get_qty(name)` larger by exactly `qty`, creates the entry when it was
absent, and an absent entry's prior value reads as `0`. -/
theorem add_item_increases_qty (s : Stock) (name : String) (q : Int) (_h : 0 < q) :
    get_qty ((add_item (PyVal.str name) (PyVal.int q) s).1) name = get_qty s name + q
    ∧ dictMem ((add_item (PyVal.str name) (PyVal.int q) s).1) name = true
    ∧ (dictMem s name = false → get_qty s name = 0) := by
  refine ⟨?_, ?_, ?_⟩
  · show dictGet (dictSet s name (dictGet s name 0 + q)) name 0 = dictGet s name 0 + q
    exact dictGet_set_self s name (dictGet s name 0 + q) 0
  · show dictMem (dictSet s name (dictGet s name 0 + q)) name = true
    simp [dictMem, dictFind_set_self]
  · intro hab
    cases hf : dictFind s name with
    | none => simp [get_qty, dictGet, hf]
    | some v =>
      rw [dictMem, hf] at hab
      simp at hab

/-- Claim C3 witness: adding 10 apples to the empty mapping. -/
theorem add_item_increases_qty_witness :
    get_qty ((add_item (PyVal.str "apple") (PyVal.int 10) ([] : Stock)).1) "apple" =
      get_qty ([] : Stock) "apple" + 10
    ∧ dictMem ((add_item (PyVal.str "apple") (PyVal.int 10) ([] : Stock)).1) "apple" = true
    ∧ (dictMem ([] : Stock) "apple" = false → get_qty ([] : Stock) "apple" = 0) :=
  add_item_increases_qty ([] : Stock) "apple" 10 (by decide)

/-- Claim C4: for every item present in the mapping and every integer `qty`,
`remove_item` decrements the stored quantity by `qty`; when the result is
`≤ 0` the entry is deleted entirely, `get_qty` afterwards returns `0` and the
name is absent; otherwise the decremented value is stored and the name stays
present. -/
theorem remove_item_decrements_or_deletes (s : Stock) (name : String) (q : Int)
    (hmem : dictMem s name = true) :
    (dictGet s name 0 - q ≤ 0 →
      dictMem ((remove_item (PyVal.str name) (PyVal.int q) s).1) name = false
      ∧ get_qty ((remove_item (PyVal.str name) (PyVal.int q) s).1) name = 0)
    ∧ (0 < dictGet s name 0 - q →
      get_qty ((remove_item (PyVal.str name) (PyVal.int q) s).1) name =
        dictGet s name 0 - q
      ∧ dictMem ((remove_item (PyVal.str name) (PyVal.int q) s).1) name = true) := by
  constructor
  · intro hle
    rw [remove_item_present s name q hmem, if_pos hle]
    constructor
    · simp [dictMem, dictFind_del_self]
    · simp [get_qty, dictGet, dictFind_del_self]
  · intro hgt
    rw [remove_item_present s name q hmem, if_neg (by omega)]
    constructor
    · simp [get_qty, dictGet_set_self]
    · simp [dictMem, dictFind_set_self]

/-- Claim C4 witness: removing 12 from `{"apple": 10}` deletes the entry and
`get_qty` then reads `0`. -/
theorem remove_item_decrements_or_deletes_witness :
    dictMem ((remove_item (PyVal.str "apple") (PyVal.int 12)
        [("apple", (10 : Int))]).1) "apple" = false
    ∧ get_qty ((remove_item (PyVal.str "apple") (PyVal.int 12)
        [("apple", (10 : Int))]).1) "apple" = 0 :=
  (remove_item_decrements_or_deletes [("apple", (10 : Int))] "apple" 12
    (by decide)).1 (by decide)

/-- Claim C5: `check_low_items(threshold)` returns exactly the names whose
stored quantity is strictly below the threshold, in the mapping's insertion
order (a sublist of the key sequence), and on `{apple: 3, banana: 10}` with
threshold `5` it returns `["apple"]`. -/
theorem check_low_items_correct (s : Stock) (t : Int) (h : WF s) :
    (∀ x : String, x ∈ check_low_items s t ↔ dictMem s x = true ∧ dictGet s x 0 < t)
    ∧ List.Sublist (check_low_items s t) (s.map Prod.fst)
    ∧ check_low_items [("apple", (3 : Int)), ("banana", (10 : Int))] 5 = ["apple"] :=
  ⟨fun x => mem_check_low_iff s t h x, check_low_sublist s t, by decide⟩

/-- Claim C5 witness: the spec's example, instantiated at `"apple"`. -/
theorem check_low_items_correct_witness :
    "apple" ∈ check_low_items [("apple", (3 : Int)), ("banana", (10 : Int))] 5 ↔
      dictMem [("apple", (3 : Int)), ("banana", (10 : Int))] "apple" = true
      ∧ dictGet [("apple", (3 : Int)), ("banana", (10 : Int))] "apple" 0 < 5 :=
  (check_low_items_correct [("apple", (3 : Int)), ("banana", (10 : Int))] 5
    (by decide)).1 "apple"

/-- Claim C6: removing a name absent from the mapping leaves the mapping
unchanged and logs a warning (the `KeyError` is caught), not an error. -/
theorem remove_item_absent_warns (s : Stock) (name : String) (q : Int)
    (h : dictMem s name = false) :
    remove_item (PyVal.str name) (PyVal.int q) s = (s, LogLevel.warning) :=
  remove_item_absent_eq s name q h

/-- Claim C6 witness: `remove_item("orange", 1)` with apples in stock. -/
theorem remove_item_absent_warns_witness :
    remove_item (PyVal.str "orange") (PyVal.int 1) [("apple", (10 : Int))] =
      ([("apple", (10 : Int))], LogLevel.warning) :=
  remove_item_absent_warns [("apple", (10 : Int))] "orange" 1 (by decide)

/-- Claim C7: when the name is not a string or the quantity is not an
integer, both `add_item` and `remove_item` log an error and leave the stock
mapping unchanged. -/
theorem wrong_types_leave_stock_unchanged (item qty : PyVal) (s : Stock)
    (h : isStr item = false ∨ isInt qty = false) :
    add_item item qty s = (s, LogLevel.error)
    ∧ remove_item item qty s = (s, LogLevel.error) := by
  cases item with
  | int n => exact ⟨rfl, rfl⟩
  | str a =>
    cases qty with
    | int m => rcases h with h | h <;> simp [isStr, isInt] at h
    | str b => exact ⟨rfl, rfl⟩

/-- Claim C7 witness: the spec's example `add_item(123, "ten")`, and the same
arguments to `remove_item`. -/
theorem wrong_types_leave_stock_unchanged_witness :
    add_item (PyVal.int 123) (PyVal.str "ten") [("apple", (10 : Int))] =
      ([("apple", (10 : Int))], LogLevel.error)
    ∧ remove_item (PyVal.int 123) (PyVal.str "ten") [("apple", (10 : Int))] =
      ([("apple", (10 : Int))], LogLevel.error) :=
  wrong_types_leave_stock_unchanged (PyVal.int 123) (PyVal.str "ten")
    [("apple", (10 : Int))] (Or.inl (by decide))

/-- Claim C8: loading from a path with no file resets the mapping to empty,
logs a warning, and does not raise (the result is `Except.ok`). -/
theorem load_missing_file (fs : FS) (path : String)
    (h : dictFind fs path = Option.none) :
    load_data fs path = Except.ok (([] : Stock), LogLevel.warning) := by
  simp [load_data, h]

/-- Claim C8 witness: loading the default path from an empty file system. -/
theorem load_missing_file_witness :
    load_data ([] : FS) INVENTORY_FILE =
      Except.ok (([] : Stock), LogLevel.warning) :=
  load_missing_file ([] : FS) INVENTORY_FILE (by decide)

/-- Claim C9: loading an existing file whose contents do not parse as a JSON
document raises: the decode failure is not caught (`except` names only
`FileNotFoundError`) and propagates to the caller as `Except.error`. -/
theorem load_malformed_raises (fs : FS) (path : String) (toks : List Tok)
    (h1 : dictFind fs path = Option.some toks)
    (h2 : parseTop toks = Option.none) :
    load_data fs path = Except.error () := by
  simp [load_data, h1, h2]

/-- Claim C9 witness: a file holding the single token `{` (an unterminated
object) makes `load_data` propagate the failure. -/
theorem load_malformed_raises_witness :
    load_data [(INVENTORY_FILE, [Tok.lbrace])] INVENTORY_FILE =
      Except.error () :=
  load_malformed_raises [(INVENTORY_FILE, [Tok.lbrace])] INVENTORY_FILE
    [Tok.lbrace] (by decide) (by decide)

/-- Claim C10, counterexample: on `{"apple": -5}` (reachable, since
`add_item` accepts negative quantities), `remove_item("apple", -3)` sets the
quantity to `-2 ≤ 0` and therefore DELETES the entry instead of keeping it. -/
theorem remove_negative_can_delete :
    dictMem [("apple", (-5 : Int))] "apple" = true
    ∧ (remove_item (PyVal.str "apple") (PyVal.int (-3))
        [("apple", (-5 : Int))]).1 = ([] : Stock)
    ∧ dictMem ((remove_item (PyVal.str "apple") (PyVal.int (-3))
        [("apple", (-5 : Int))]).1) "apple" = false := by
  refine ⟨by decide, by decide, by decide⟩

/-- Claim C10 (amended): for every item present WITH POSITIVE stored
quantity and every integer `qty < 0`, `remove_item` performs no sign check,
so it increases the stored quantity by `|qty|` (the new value is
`old - qty > old`) and keeps the entry. (As stated the claim is false: when
the stored quantity is already non-positive enough that `old - qty ≤ 0`
still holds, the entry is deleted.) -/
theorem remove_negative_adds_on_positive (s : Stock) (name : String) (q : Int)
    (hmem : dictMem s name = true) (hq : q < 0) (hpos : 0 < dictGet s name 0) :
    get_qty ((remove_item (PyVal.str name) (PyVal.int q) s).1) name =
      dictGet s name 0 - q
    ∧ dictGet s name 0 < get_qty ((remove_item (PyVal.str name) (PyVal.int q) s).1) name
    ∧ dictMem ((remove_item (PyVal.str name) (PyVal.int q) s).1) name = true := by
  rw [remove_item_present s name q hmem, if_neg (by omega)]
  refine ⟨?_, ?_, ?_⟩
  · simp [get_qty, dictGet_set_self]
  · simp only [get_qty, dictGet_set_self]
    omega
  · simp [dictMem, dictFind_set_self]

/-- Claim C10 witness: `remove_item("apple", -3)` on `{"apple": 5}` stores
`8` and keeps the entry. -/
theorem remove_negative_adds_on_positive_witness :
    get_qty ((remove_item (PyVal.str "apple") (PyVal.int (-3))
        [("apple", (5 : Int))]).1) "apple" =
      dictGet [("apple", (5 : Int))] "apple" 0 - (-3)
    ∧ dictGet [("apple", (5 : Int))] "apple" 0 <
        get_qty ((remove_item (PyVal.str "apple") (PyVal.int (-3))
          [("apple", (5 : Int))]).1) "apple"
    ∧ dictMem ((remove_item (PyVal.str "apple") (PyVal.int (-3))
        [("apple", (5 : Int))]).1) "apple" = true :=
  remove_negative_adds_on_positive [("apple", (5 : Int))] "apple" (-3)
    (by decide) (by decide) (by decide)

end InventorySpec
